import Mathlib

/-!
Verification development for the todo-frontend voice-session client.

The definitions below are a shallow embedding of the voice-assistant
component of the repository:

* the Tool-Call Bridge (`handleToolCall` in `VoiceAssistant`, Gemini
  variant): fuzzy title matching, create/update/delete dispatch into the
  CRUD layer, structured results;
* the audio codec (inline float32→int16 conversion in `onaudioprocess`
  together with `arrayBufferToBase64`, and the spec-modelled decode side);
* the playback pipeline (gapless scheduling against `nextStartTimeRef`,
  the in-flight source set, the `interrupted` handler) and the session
  teardown path (`stopSession`).

Strings are modelled as `List Char` (`Str`), JS numbers involved in the
audio path as `ℚ`, and machine 16-bit integers as `ℤ` with an explicit
wrap at 2^16.
-/

namespace TodoVoice

/-- Strings of the embedded program, as lists of characters. -/
abbrev Str := List Char

/-- JavaScript `x || d` on an optional string argument: a missing value and
the empty string are both falsy and fall back to the default `d`. -/
def jsOr (x : Option Str) (d : Str) : Str :=
  match x with
  | some s => if s = [] then d else s
  | none => d

/-- JavaScript `String.prototype.toLowerCase` restricted to the basic latin
range, matching `Char.toLower`. -/
def jsToLower (s : Str) : Str := s.map Char.toLower

/-- The `Todo` record mirrored by the client (`src/types.ts`). -/
structure Todo where
  id : Str
  title : Str
  description : Str
  due_date : Str
  priority : Str
deriving DecidableEq, Repr

/-- A call into the external CRUD layer (`api.createTodo`,
`api.updateTodo`, `api.deleteTodo`). -/
inductive CrudCall where
  | create (title description priority due_date : Str)
  | update (id title description priority due_date : Str)
  | delete (id : Str)
deriving DecidableEq, Repr

/-- A tool call issued by the assistant, after the argument shapes declared
in `toolDefinitions`: `title` and `search_title` are required, every other
argument is optional. -/
inductive ToolCall where
  | getTodos
  | createTodo (title : Str) (description priority due_date : Option Str)
  | deleteTodo (search_title : Str)
  | updateTodo (search_title : Str)
      (new_title new_description new_priority new_due_date : Option Str)
  | unknownTool (name : Str)
deriving DecidableEq, Repr

/-- The projection of a todo returned by the `get_todos` branch
(title, priority, due date, description). -/
structure TodoView where
  title : Str
  priority : Str
  due_date : Str
  description : Str
deriving DecidableEq, Repr

/-- The result object `handleToolCall` hands back to the transport:
either `{status: success, message}`, `{status: error, message}`,
`{todos: [...]}`, or the initial `{error: 'Unknown tool'}`. -/
inductive ToolResult where
  | ok (message : Str)
  | err (message : Str)
  | todoList (items : List TodoView)
  | unknownTool
deriving DecidableEq, Repr

/-- JavaScript `Array.prototype.join(', ')`. -/
def joinComma : List Str → Str
  | [] => []
  | [s] => s
  | s :: rest => s ++ (", ".toList) ++ joinComma rest

/-- Case-insensitive substring matching of a search query against the
mirrored todo titles:
`todosRef.current.filter((t) => t.title.toLowerCase().includes(query))`
with `query = search_title.toLowerCase()`. -/
def fuzzyMatches (todos : List Todo) (search_title : Str) : List Todo :=
  let query := jsToLower search_title
  todos.filter fun t => decide (query <:+: jsToLower t.title)

/-- Message of the zero-match branch. -/
def noTaskFoundMsg : Str := "No task found matching that name.".toList

/-- Message of the multi-match branch of `delete_todo`. -/
def multipleDeleteMsg (ms : List Todo) : Str :=
  "Multiple tasks found: ".toList ++ joinComma (ms.map (·.title))
    ++ ". Please be more specific.".toList

/-- Message of the multi-match branch of `update_todo`. -/
def multipleUpdateMsg (ms : List Todo) : Str :=
  "Multiple tasks found: ".toList ++ joinComma (ms.map (·.title))
    ++ ".".toList

/-- Success message of the `create_todo` branch. -/
def createdMsg (title : Str) : Str :=
  "Created task \"".toList ++ title ++ "\"".toList

/-- Success message of the `delete_todo` branch. -/
def deletedMsg (title : Str) : Str :=
  "Deleted task \"".toList ++ title ++ "\"".toList

/-- Success message of the `update_todo` branch. -/
def updatedMsg (title : Str) : Str :=
  "Updated task \"".toList ++ title ++ "\"".toList

/-- The catch-all of `handleToolCall`: `e.message || 'Action failed'`. -/
def caughtMsg (e : Str) : Str :=
  if e = [] then "Action failed".toList else e

/-- The Tool-Call Bridge (`handleToolCall` in the Gemini `VoiceAssistant`).

`api` gives the outcome of each CRUD-layer call (`Except.error e` models
the underlying call throwing an error whose `.message` is `e`); `toIso`
models `(d : Date) => d.toISOString()` applied to a millisecond timestamp
and `nowMs` models `Date.now()`.  The second component of the result
records the CRUD calls the branch performed, in order.  The function is
total: every CRUD failure is caught and turned into a structured
`ToolResult.err`, mirroring the `try`/`catch` around the dispatch. -/
def handleToolCall (api : CrudCall → Except Str Unit) (toIso : ℕ → Str)
    (nowMs : ℕ) (todos : List Todo) (fc : ToolCall) :
    ToolResult × List CrudCall :=
  match fc with
  | .getTodos =>
      (.todoList (todos.map fun t => ⟨t.title, t.priority, t.due_date, t.description⟩), [])
  | .createTodo title description priority due_date =>
      let p := jsOr priority "medium".toList
      let d := jsOr due_date (toIso (nowMs + 86400000))
      let call := CrudCall.create title (jsOr description []) p d
      match api call with
      | .ok _ => (.ok (createdMsg title), [call])
      | .error e => (.err (caughtMsg e), [call])
  | .deleteTodo search_title =>
      match fuzzyMatches todos search_title with
      | [] => (.err noTaskFoundMsg, [])
      | [t] =>
          let call := CrudCall.delete t.id
          match api call with
          | .ok _ => (.ok (deletedMsg t.title), [call])
          | .error e => (.err (caughtMsg e), [call])
      | t₁ :: t₂ :: rest => (.err (multipleDeleteMsg (t₁ :: t₂ :: rest)), [])
  | .updateTodo search_title new_title new_description new_priority new_due_date =>
      match fuzzyMatches todos search_title with
      | [] => (.err noTaskFoundMsg, [])
      | [t] =>
          let call := CrudCall.update t.id (jsOr new_title t.title)
            (jsOr new_description t.description) (jsOr new_priority t.priority)
            (jsOr new_due_date t.due_date)
          match api call with
          | .ok _ => (.ok (updatedMsg t.title), [call])
          | .error e => (.err (caughtMsg e), [call])
      | t₁ :: t₂ :: rest => (.err (multipleUpdateMsg (t₁ :: t₂ :: rest)), [])
  | .unknownTool _ => (.unknownTool, [])

/-- JavaScript clamping `Math.max(-1, Math.min(1, x))` of a sample. -/
def clampSample (s : ℚ) : ℚ := max (-1) (min 1 s)

/-- JavaScript truncation toward zero, as applied when a number is stored
into an `Int16Array` element. -/
def jsTrunc (q : ℚ) : ℤ := if q < 0 then ⌈q⌉ else ⌊q⌋

/-- Wrap of an integer into the signed 16-bit range, the `mod 2^16` step of
the `Int16Array` element conversion. -/
def wrap16 (n : ℤ) : ℤ := (n + 32768) % 65536 - 32768

/-- The inline float32→int16 conversion of `onaudioprocess`:
`const s = Math.max(-1, Math.min(1, inputData[i]));`
`pcmData[i] = s < 0 ? s * 0x8000 : s * 0x7fff;`. -/
def floatToInt16 (s : ℚ) : ℤ :=
  let c := clampSample s
  wrap16 (jsTrunc (if c < 0 then c * 32768 else c * 32767))

/-- The two little-endian bytes of an `Int16Array` element inside its
backing `ArrayBuffer`. -/
def int16ToBytesLE (q : ℤ) : List ℕ :=
  let u := (q % 65536).toNat
  [u % 256, u / 256]

/-- The byte content of `pcmData.buffer`: every sample converted to int16
and laid out as consecutive little-endian pairs. -/
def encodePcm : List ℚ → List ℕ
  | [] => []
  | x :: xs => int16ToBytesLE (floatToInt16 x) ++ encodePcm xs

/-- The base64 alphabet used by `window.btoa`. -/
def base64Table : Str :=
  "ABCDEFGHIJKLMNOPQRSTUVWXYZabcdefghijklmnopqrstuvwxyz0123456789+/".toList

/-- Character of a six-bit group. -/
def sixToChar (n : ℕ) : Char := base64Table.getD n 'A'

/-- RFC 4648 base64 of a byte sequence, the behaviour of `window.btoa` on
the binary string that `arrayBufferToBase64` accumulates. -/
def base64Encode : List ℕ → Str
  | [] => []
  | [b₁] => [sixToChar (b₁ / 4), sixToChar (b₁ % 4 * 16), '=', '=']
  | [b₁, b₂] => [sixToChar (b₁ / 4), sixToChar (b₁ % 4 * 16 + b₂ / 16),
      sixToChar (b₂ % 16 * 4), '=']
  | b₁ :: b₂ :: b₃ :: rest =>
      sixToChar (b₁ / 4) :: sixToChar (b₁ % 4 * 16 + b₂ / 16) ::
      sixToChar (b₂ % 16 * 4 + b₃ / 64) :: sixToChar (b₃ % 64) ::
      base64Encode rest

/-- `arrayBufferToBase64`: reads the buffer bytes into a binary string and
applies `window.btoa`, i.e. base64-encodes the bytes. -/
def arrayBufferToBase64 (bytes : List ℕ) : Str := base64Encode bytes

/-- The full capture-side encoding (spec name `encode`): clamp, scale to
int16, pack little-endian, wrap as base64 — the composition performed by
`onaudioprocess` before sending an `audio` frame. -/
def encode (xs : List ℚ) : Str := arrayBufferToBase64 (encodePcm xs)

/-- Index of a character in a list, used to invert the base64 alphabet. -/
def lookupSix (c : Char) : List Char → Option ℕ
  | [] => none
  | d :: rest => if c = d then some 0 else (lookupSix c rest).map (· + 1)

/-- Modelled from the spec: the six-bit value of one base64 character,
part of reversing the base64 step (`base64ToUint8Array` lives in
`src/utils/audioUtils.ts`, which is not under `src/`). -/
def charToSix (c : Char) : Option ℕ := lookupSix c base64Table

/-- Modelled from the spec: decoding of one base64 group of four
characters into one, two or three bytes, honouring `=` padding. -/
def base64DecodeGroup (c₁ c₂ c₃ c₄ : Char) : Option (List ℕ) :=
  match charToSix c₁, charToSix c₂ with
  | some s₁, some s₂ =>
      if c₃ = '=' then
        if c₄ = '=' then some [s₁ * 4 + s₂ / 16] else none
      else
        match charToSix c₃ with
        | some s₃ =>
            if c₄ = '=' then some [s₁ * 4 + s₂ / 16, s₂ % 16 * 16 + s₃ / 4]
            else
              match charToSix c₄ with
              | some s₄ => some [s₁ * 4 + s₂ / 16, s₂ % 16 * 16 + s₃ / 4,
                  s₃ % 4 * 64 + s₄]
              | none => none
        | none => none
  | _, _ => none

/-- Modelled from the spec: `base64ToUint8Array` reverses the base64 step,
yielding the byte sequence (`none` on input that is not valid base64). -/
def base64Decode : List Char → Option (List ℕ)
  | [] => some []
  | c₁ :: c₂ :: c₃ :: c₄ :: rest =>
      match base64DecodeGroup c₁ c₂ c₃ c₄, base64Decode rest with
      | some g, some r => some (g ++ r)
      | _, _ => none
  | _ => none

/-- Modelled from the spec: reinterpretation of an unsigned 16-bit value as
a signed little-endian 16-bit sample. -/
def toSigned16 (u : ℕ) : ℤ := if 32768 ≤ u then (u : ℤ) - 65536 else (u : ℤ)

/-- Modelled from the spec: pairing of the byte sequence into signed 16-bit
little-endian samples; fails when the byte length is odd (not a multiple of
2 bytes per channel, mono case). -/
def bytesToPcm : List ℕ → Option (List ℤ)
  | [] => some []
  | b₀ :: b₁ :: rest => (bytesToPcm rest).map fun qs => toSigned16 (b₀ + 256 * b₁) :: qs
  | [_] => none

/-- A decoded playable buffer tagged with its sample rate and channel
count, as produced by `decodeAudioData`.  Its `duration` is
`length / sampleRate`, the Web Audio `AudioBuffer.duration`. -/
structure AudioBuffer where
  sampleRate : ℕ
  channels : ℕ
  samples : List ℚ
deriving DecidableEq, Repr

/-- Duration in seconds of a decoded buffer. -/
def AudioBuffer.duration (b : AudioBuffer) : ℚ := (b.samples.length : ℚ) / (b.sampleRate : ℚ)

/-- Modelled from the spec: `decodeAudioData` (in `src/utils/audioUtils.ts`,
not under `src/`) reinterprets the bytes as signed 16-bit little-endian
samples, rescales them to the floating range [-1, 1] by dividing by 2^15,
and materializes a buffer tagged with the given sample rate and channel
count (mono in every call of this client); it fails when the byte length is
not a multiple of 2 bytes per channel. -/
def decodeAudioData (bytes : List ℕ) (sampleRate channels : ℕ) : Option AudioBuffer :=
  (bytesToPcm bytes).map fun pcm =>
    ⟨sampleRate, channels, pcm.map fun q => ((q : ℤ) : ℚ) / 32768⟩

/-- The full playback-side decoding (spec name `decode`): base64-unwrap via
`base64ToUint8Array`, then `decodeAudioData`. -/
def decodeWire (wire : Str) (sampleRate channels : ℕ) : Option AudioBuffer :=
  (base64Decode wire).bind fun bytes => decodeAudioData bytes sampleRate channels

/-- An `AudioBufferSourceNode` as far as the session tracks it: whether
`start()` has been called and whether `stop()` has been called. -/
structure AudioSource where
  started : Bool
  stopped : Bool
deriving DecidableEq, Repr

/-- `source.stop()` of the Web Audio API: throws an `InvalidStateError`
when the source has not been started, otherwise marks it stopped (stopping
an already-stopped started source is allowed and keeps it stopped). -/
def sourceStop (s : AudioSource) : Except Str AudioSource :=
  if s.started then .ok { s with stopped := true }
  else .error "InvalidStateError".toList

/-- `try { source.stop(); } catch (e) {}` — the guarded stop used by the
`interrupted` handler: a failing stop is swallowed. -/
def tryStop (s : AudioSource) : AudioSource :=
  match sourceStop s with
  | .ok s' => s'
  | .error _ => s

/-- The playback-pipeline state: the monotone play-head clock
`nextStartTimeRef`, the in-flight set `audioSourcesRef`, and (for
specification purposes) the log of `(startTime, duration)` pairs passed to
`source.start` so far. -/
structure Playback where
  nextStartTime : ℚ
  inFlight : List AudioSource
  log : List (ℚ × ℚ)
deriving DecidableEq, Repr

/-- The playback state at session start. -/
def initPlayback : Playback := ⟨0, [], []⟩

/-- The audio branch of `onmessage` (spec name `enqueue`): pull the clock
up to `ctx.currentTime`, start the decoded buffer at the resulting
`nextStartTime`, advance `nextStartTime` by the buffer's duration, and add
the started source to the in-flight set. -/
def enqueue (ctxTime : ℚ) (buf : AudioBuffer) (p : Playback) : Playback :=
  let start := max p.nextStartTime ctxTime
  { nextStartTime := start + buf.duration
    inFlight := p.inFlight ++ [⟨true, false⟩]
    log := p.log ++ [(start, buf.duration)] }

/-- A whole sequence of `enqueue` operations, each arriving at its own
clock reading. -/
def enqueueAll (p : Playback) : List (ℚ × AudioBuffer) → Playback
  | [] => p
  | (c, b) :: rest => enqueueAll (enqueue c b p) rest

/-- The `interrupted` branch of `onmessage` (spec name `interrupt`): stop
every in-flight source with the guarded `tryStop`, clear the in-flight
set, and reset `nextStartTime` to zero.  The second component returns the
sources as they are after their `stop()` call, so that the effect of the
stops remains observable. -/
def interrupt (p : Playback) : Playback × List AudioSource :=
  ({ nextStartTime := 0, inFlight := [], log := p.log },
   p.inFlight.map tryStop)

/-- The `readyState` of a `WebSocket`. -/
inductive ReadyState where
  | connecting
  | opened
  | closing
  | closed
deriving DecidableEq, Repr

/-- A frame sent over the WebSocket transport, a JSON-tagged object. -/
structure Frame where
  type : Str
  data : Str
deriving DecidableEq, Repr

/-- The voice-session state held by the component: the React flags, the
volume reading, the `wsRef`, both audio-context refs, and the playback
pipeline.  Resource refs are `Option` values: `none` is a nulled ref. -/
structure Session where
  isActive : Bool
  isConnecting : Bool
  volume : ℚ
  ws : Option ReadyState
  inputCtx : Option Unit
  outputCtx : Option Unit
  playback : Playback
deriving DecidableEq, Repr

/-- The guarded transmission at the end of `onaudioprocess`:
`if (ws.readyState === WebSocket.OPEN) { ws.send(...) }`.  Returns the
session state (which the send never touches) and the list of frames that
actually went out. -/
def wsSendAudio (readyState : ReadyState) (frame : Frame) (sess : Session) :
    Session × List Frame :=
  if readyState = ReadyState.opened then (sess, [frame]) else (sess, [])

/-- Mean square of the chunk samples, `sum / inputData.length`.  The source
displays `Math.sqrt(sum / inputData.length) * 100`; the square root has no
exact rational counterpart, so the state stores the mean square, of which
the displayed value is a strictly monotone function. -/
def meanSquare (samples : List ℚ) : ℚ :=
  (samples.map fun x => x * x).sum / (samples.length : ℚ)

/-- One invocation of the `onaudioprocess` chunk handler: update the volume
reading, convert the chunk to base64 PCM16, and transmit it as an `audio`
frame only when the socket is open. -/
def onAudioProcess (readyState : ReadyState) (samples : List ℚ) (sess : Session) :
    Session × List Frame :=
  wsSendAudio readyState ⟨"audio".toList, encode samples⟩
    { sess with volume := meanSquare samples }

/-- A resource release performed by `stopSession`, for counting releases. -/
inductive Release where
  | closeWs
  | closeInputCtx
  | closeOutputCtx
  | stopSource
deriving DecidableEq, Repr

/-- `forEach((source) => source.stop())` of `stopSession`: unguarded stops,
so an exception from one source aborts the loop and propagates. -/
def stopAll : List AudioSource → Except Str (List AudioSource)
  | [] => .ok []
  | s :: rest =>
      match sourceStop s with
      | .ok s' => (stopAll rest).map fun rest' => s' :: rest'
      | .error e => .error e

/-- `stopSession` of the WebSocket `VoiceAssistant`: reset the React flags
and the volume, close and null the socket ref, close and null both audio
contexts, stop every in-flight source and clear the set.  The result
carries the new session state and the list of resource releases performed;
an exception from an unguarded `source.stop()` propagates. -/
def stopSession (s : Session) : Except Str (Session × List Release) :=
  let wsActs : List Release := if s.ws.isSome then [.closeWs] else []
  let inActs : List Release := if s.inputCtx.isSome then [.closeInputCtx] else []
  let outActs : List Release := if s.outputCtx.isSome then [.closeOutputCtx] else []
  match stopAll s.playback.inFlight with
  | .error e => .error e
  | .ok stopped =>
      .ok ({ isActive := false, isConnecting := false, volume := 0,
             ws := none, inputCtx := none, outputCtx := none,
             playback := { s.playback with inFlight := [] } },
           wsActs ++ inActs ++ outActs ++ stopped.map fun _ => Release.stopSource)

/-- Normalization used to state the falsy-field property: a supplied empty
string collapses to an absent argument. -/
def normEmpty : Option Str → Option Str
  | some s => if s = [] then none else some s
  | none => none

/-- Example task "Buy Milk" of the specification's fuzzy-match scenario. -/
def exMilk : Todo :=
  ⟨"1".toList, "Buy Milk".toList, [], [], "medium".toList⟩

/-- Example task "Buy Bread" of the specification's fuzzy-match scenario. -/
def exBread : Todo :=
  ⟨"2".toList, "Buy Bread".toList, [], [], "medium".toList⟩

/-- The two-task mirror of the specification's fuzzy-match scenario. -/
def exTodos : List Todo := [exMilk, exBread]

theorem jsOr_normEmpty (x : Option Str) (d : Str) : jsOr (normEmpty x) d = jsOr x d := by
  cases x with
  | none => rfl
  | some s =>
      by_cases h : s = [] <;> simp [normEmpty, jsOr, h]

theorem jsOr_eq_nil (x : Option Str) (d : Str) (h : jsOr x d = []) : d = [] := by
  cases x with
  | none => exact h
  | some s =>
      by_cases hs : s = [] <;> simp [jsOr, hs] at h
      exact h

/-- C7: a capture-pipeline audio frame is transmitted exactly when the
socket's `readyState` is OPEN; in every other state the send is dropped
silently, no frame goes out, and the handler's only state effect is the
volume reading — the send itself leaves the session state untouched. -/
theorem audio_send_iff_open (rs : ReadyState) (samples : List ℚ) (sess : Session) :
    ((onAudioProcess rs samples sess).2 ≠ [] ↔ rs = ReadyState.opened)
    ∧ (onAudioProcess rs samples sess).2
        = (if rs = ReadyState.opened then [⟨"audio".toList, encode samples⟩] else [])
    ∧ (onAudioProcess rs samples sess).1 = { sess with volume := meanSquare samples }
    ∧ (∀ (f : Frame) (s' : Session),
        wsSendAudio rs f s' = (s', if rs = ReadyState.opened then [f] else [])) := by
  refine ⟨?_, ?_, ?_, ?_⟩
  · by_cases h : rs = ReadyState.opened <;> simp [onAudioProcess, wsSendAudio, h]
  · by_cases h : rs = ReadyState.opened <;> simp [onAudioProcess, wsSendAudio, h]
  · by_cases h : rs = ReadyState.opened <;> simp [onAudioProcess, wsSendAudio, h]
  · intro f s'
    by_cases h : rs = ReadyState.opened <;> simp [wsSendAudio, h]

/-- C7 witness: with a closed socket the handler sends nothing. -/
theorem audio_send_iff_open_witness :
    (onAudioProcess ReadyState.closed [1/2]
      ⟨true, false, 0, some ReadyState.closed, some (), some (), ⟨0, [], []⟩⟩).2 = [] := by
  rw [(audio_send_iff_open ReadyState.closed [1/2]
    ⟨true, false, 0, some ReadyState.closed, some (), some (), ⟨0, [], []⟩⟩).2.1]
  decide

/-- C8: `interrupt` always empties the in-flight set and resets
`nextStartTime` to zero; every started source is stopped, and the guarded
stop is total — a source whose `stop()` throws (one never started) is left
unchanged rather than propagating the exception. -/
theorem interrupt_resets (p : Playback) :
    (interrupt p).1.inFlight = []
    ∧ (interrupt p).1.nextStartTime = 0
    ∧ (interrupt p).2 = p.inFlight.map tryStop
    ∧ (∀ s : AudioSource, s.started = true → (tryStop s).stopped = true)
    ∧ (∀ s : AudioSource, s.started = false → tryStop s = s) := by
  refine ⟨rfl, rfl, rfl, ?_, ?_⟩
  · intro s hs
    simp [tryStop, sourceStop, hs]
  · intro s hs
    simp [tryStop, sourceStop, hs]

/-- C8 witness: interrupting with one already-stopped and one playing
source in flight empties the set, zeroes the clock, and stops both. -/
theorem interrupt_resets_witness :
    (interrupt ⟨7, [⟨true, true⟩, ⟨true, false⟩], []⟩).1.inFlight = []
    ∧ (interrupt ⟨7, [⟨true, true⟩, ⟨true, false⟩], []⟩).1.nextStartTime = 0
    ∧ (interrupt ⟨7, [⟨true, true⟩, ⟨true, false⟩], []⟩).2
        = [⟨true, true⟩, ⟨true, true⟩] := by
  have h := interrupt_resets ⟨7, [⟨true, true⟩, ⟨true, false⟩], []⟩
  exact ⟨h.1, h.2.1, by rw [h.2.2.1]; decide⟩

/-- C10: in the update branch, a replacement field supplied as the empty
string is treated exactly like an absent field (the JS `||` default keeps
the task's prior value), and a field of the CRUD payload can only be empty
when the prior value itself was empty. -/
theorem update_falsy_field_retains (api : CrudCall → Except Str Unit)
    (toIso : ℕ → Str) (nowMs : ℕ) (todos : List Todo) (q : Str)
    (nt nd np ndd : Option Str) :
    handleToolCall api toIso nowMs todos (.updateTodo q nt nd np ndd)
      = handleToolCall api toIso nowMs todos
          (.updateTodo q (normEmpty nt) (normEmpty nd) (normEmpty np) (normEmpty ndd))
    ∧ (∀ (x : Option Str) (d : Str), jsOr x d = [] → d = []) := by
  refine ⟨?_, fun x d h => jsOr_eq_nil x d h⟩
  simp only [handleToolCall, jsOr_normEmpty]

/-- C10 witness: supplying `new_title` and `new_description` as empty
strings gives the same bridge behaviour as omitting them. -/
theorem update_falsy_field_retains_witness :
    handleToolCall (fun _ => .ok ()) (fun _ => []) 0 exTodos
        (.updateTodo "milk".toList (some []) (some []) none none)
      = handleToolCall (fun _ => .ok ()) (fun _ => []) 0 exTodos
          (.updateTodo "milk".toList none none none none) :=
  (update_falsy_field_retains (fun _ => .ok ()) (fun _ => []) 0 exTodos
    "milk".toList (some []) (some []) none none).1

theorem AudioBuffer.duration_nonneg (b : AudioBuffer) : 0 ≤ b.duration :=
  div_nonneg (Nat.cast_nonneg _) (Nat.cast_nonneg _)

/-- The playback ordering relation: a scheduled entry ends no later than
the next one starts. -/
def gapless (a b : ℚ × ℚ) : Prop := a.1 + a.2 ≤ b.1

theorem enqueueAll_inv :
    ∀ (ins : List (ℚ × AudioBuffer)) (p : Playback),
    List.Chain' gapless p.log →
    (∀ x ∈ p.log.getLast?, x.1 + x.2 ≤ p.nextStartTime) →
    (∀ x ∈ p.log, 0 ≤ x.2) →
    List.Chain' gapless (enqueueAll p ins).log
    ∧ (∀ x ∈ (enqueueAll p ins).log.getLast?, x.1 + x.2 ≤ (enqueueAll p ins).nextStartTime)
    ∧ (∀ x ∈ (enqueueAll p ins).log, 0 ≤ x.2)
  | [], p => fun h₁ h₂ h₃ => ⟨h₁, h₂, h₃⟩
  | (c, b) :: rest, p => fun h₁ h₂ h₃ => by
      have hstart : p.nextStartTime ≤ max p.nextStartTime c := le_max_left _ _
      apply enqueueAll_inv rest (enqueue c b p)
      · refine List.chain'_append.mpr ⟨h₁, List.chain'_singleton _, ?_⟩
        intro x hx y hy
        simp only [List.head?_cons, Option.mem_def, Option.some.injEq] at hy
        subst hy
        exact le_trans (h₂ x hx) hstart
      · intro x hx
        simp only [enqueue, List.getLast?_concat, Option.mem_def, Option.some.injEq] at hx ⊢
        subst hx
        rfl
      · intro x hx
        simp only [enqueue, List.mem_append, List.mem_singleton] at hx
        rcases hx with hx | hx
        · exact h₃ x hx
        · subst hx
          exact b.duration_nonneg

theorem chain'_starts_of_gapless :
    ∀ l : List (ℚ × ℚ), List.Chain' gapless l → (∀ x ∈ l, 0 ≤ x.2) →
    List.Chain' (fun a b : ℚ × ℚ => a.1 ≤ b.1) l
  | [], _, _ => List.chain'_nil
  | [_], _, _ => List.chain'_singleton _
  | x :: y :: rest, h, hd => by
      rw [List.chain'_cons] at h ⊢
      refine ⟨?_, chain'_starts_of_gapless (y :: rest) h.2 fun z hz => hd z (List.mem_cons_of_mem _ hz)⟩
      have hx : 0 ≤ x.2 := hd x (List.mem_cons_self _ _)
      have := h.1
      simp only [gapless] at this
      linarith

/-- C2: starting from a fresh playback state, every `enqueue` schedules its
buffer at `max(nextStartTime, ctx.currentTime)` and advances
`nextStartTime` by the buffer's duration; over any sequence of enqueues,
whatever the interleaved clock readings, the scheduled start times are
non-decreasing and each buffer starts no earlier than the previous start
plus the previous duration (no overlap). -/
theorem enqueue_gapless (ins : List (ℚ × AudioBuffer)) :
    (∀ (c : ℚ) (b : AudioBuffer) (p : Playback),
        enqueue c b p
          = ⟨max p.nextStartTime c + b.duration,
             p.inFlight ++ [⟨true, false⟩],
             p.log ++ [(max p.nextStartTime c, b.duration)]⟩)
    ∧ List.Chain' gapless (enqueueAll initPlayback ins).log
    ∧ List.Chain' (fun a b : ℚ × ℚ => a.1 ≤ b.1) (enqueueAll initPlayback ins).log := by
  have h := enqueueAll_inv ins initPlayback (by simp [initPlayback])
    (by simp [initPlayback]) (by simp [initPlayback])
  exact ⟨fun c b p => rfl, h.1, chain'_starts_of_gapless _ h.1 h.2.2⟩

/-- C2 witness: two bursts arriving before the clock moves are scheduled
back to back. -/
theorem enqueue_gapless_witness :
    List.Chain' gapless
      (enqueueAll initPlayback
        [(0, ⟨24000, 1, [0, 0]⟩), (0, ⟨24000, 1, [0]⟩)]).log :=
  (enqueue_gapless [(0, ⟨24000, 1, [0, 0]⟩), (0, ⟨24000, 1, [0]⟩)]).2.1

theorem stopAll_ok :
    ∀ l : List AudioSource, (∀ s ∈ l, s.started = true) →
    stopAll l = .ok (l.map fun s => { s with stopped := true })
  | [], _ => rfl
  | s :: rest, h => by
      have hs : s.started = true := h s (List.mem_cons_self _ _)
      have hr := stopAll_ok rest fun x hx => h x (List.mem_cons_of_mem _ hx)
      simp [stopAll, sourceStop, hs, hr, Except.map]

/-- C9: `stopSession` is safe and idempotent.  On any reachable session
state (every in-flight source has been started, which is how sources enter
the set), the call raises no exception, and afterwards the websocket ref,
the input audio context and the output audio context are null, the
in-flight set is empty, and the state is Disconnected (`isActive` and
`isConnecting` both false).  Calling it again — as a second explicit call
or from an error callback — raises no exception, performs zero resource
releases, and leaves the state fixed. -/
theorem stopSession_idempotent (s : Session)
    (hstarted : ∀ src ∈ s.playback.inFlight, src.started = true) :
    ∃ (s₁ : Session) (rels : List Release),
      stopSession s = .ok (s₁, rels)
      ∧ s₁.ws = none ∧ s₁.inputCtx = none ∧ s₁.outputCtx = none
      ∧ s₁.playback.inFlight = []
      ∧ s₁.isActive = false ∧ s₁.isConnecting = false
      ∧ stopSession s₁ = .ok (s₁, []) := by
  refine ⟨{ isActive := false, isConnecting := false, volume := 0,
            ws := none, inputCtx := none, outputCtx := none,
            playback := { s.playback with inFlight := [] } },
          (if s.ws.isSome then [Release.closeWs] else [])
            ++ (if s.inputCtx.isSome then [Release.closeInputCtx] else [])
            ++ (if s.outputCtx.isSome then [Release.closeOutputCtx] else [])
            ++ (s.playback.inFlight.map fun _ => Release.stopSource),
          ?_, rfl, rfl, rfl, rfl, rfl, rfl, ?_⟩
  · simp only [stopSession, stopAll_ok s.playback.inFlight hstarted]
    simp only [Function.comp_def, List.map_const', List.length_map]
  · simp [stopSession, stopAll]

/-- C9 witness: a live session with an open socket, both contexts, and one
started in-flight source stops cleanly and a second stop is a no-op. -/
theorem stopSession_idempotent_witness :
    ∃ (s₁ : Session) (rels : List Release),
      stopSession ⟨true, false, 3, some ReadyState.opened, some (), some (),
          ⟨5, [⟨true, false⟩], []⟩⟩ = .ok (s₁, rels)
      ∧ s₁.ws = none ∧ s₁.inputCtx = none ∧ s₁.outputCtx = none
      ∧ s₁.playback.inFlight = []
      ∧ s₁.isActive = false ∧ s₁.isConnecting = false
      ∧ stopSession s₁ = .ok (s₁, []) :=
  stopSession_idempotent
    ⟨true, false, 3, some ReadyState.opened, some (), some (), ⟨5, [⟨true, false⟩], []⟩⟩
    (by decide)

theorem jsOr_none (d : Str) : jsOr none d = d := rfl

theorem infix_context (pre suf : Str) {l m : Str} (h : l <:+: m) :
    l <:+: pre ++ m ++ suf := by
  obtain ⟨u, v, huv⟩ := h
  exact ⟨pre ++ u, v ++ suf, by rw [← huv]; simp⟩

theorem mem_joinComma_part :
    ∀ (ts : List Str) (t : Str), t ∈ ts → t <:+: joinComma ts
  | [], t, h => absurd h (List.not_mem_nil t)
  | [s], t, h => by
      rw [List.mem_singleton] at h
      subst h
      exact ⟨[], [], by simp [joinComma]⟩
  | s :: s' :: rest, t, h => by
      rcases List.mem_cons.mp h with h | h
      · subst h
        exact ⟨[], ", ".toList ++ joinComma (s' :: rest), by simp [joinComma]⟩
      · obtain ⟨u, v, huv⟩ := mem_joinComma_part (s' :: rest) t h
        exact ⟨s ++ ", ".toList ++ u, v, by simp [joinComma, ← huv]⟩

theorem title_infix_multipleDeleteMsg {ms : List Todo} {t : Todo} (h : t ∈ ms) :
    t.title <:+: multipleDeleteMsg ms :=
  infix_context _ _ (mem_joinComma_part (ms.map (·.title)) t.title
    (List.mem_map_of_mem _ h))

theorem title_infix_multipleUpdateMsg {ms : List Todo} {t : Todo} (h : t ∈ ms) :
    t.title <:+: multipleUpdateMsg ms :=
  infix_context _ _ (mem_joinComma_part (ms.map (·.title)) t.title
    (List.mem_map_of_mem _ h))

/-- C1: resolution of update/delete tool calls by case-insensitive
substring match of the search string against the mirrored titles: zero
matches yield the error result "No task found matching that name." (whose
lower-casing carries the spec's "no task found") with no CRUD call;
several matches yield an error result whose message lists every matching
title, with no CRUD call; exactly one match invokes the CRUD delete/update
on that task's id.  The mirror ["Buy Milk", "Buy Bread"] resolves "milk"
uniquely, "buy" to both tasks, and "eggs" to nothing. -/
theorem fuzzy_resolution (api : CrudCall → Except Str Unit) (toIso : ℕ → Str)
    (nowMs : ℕ) (todos : List Todo) (q : Str) (nt nd np ndd : Option Str) :
    (fuzzyMatches todos q = [] →
        handleToolCall api toIso nowMs todos (.deleteTodo q) = (.err noTaskFoundMsg, [])
      ∧ handleToolCall api toIso nowMs todos (.updateTodo q nt nd np ndd)
          = (.err noTaskFoundMsg, []))
    ∧ ("no task found".toList <:+: jsToLower noTaskFoundMsg)
    ∧ (∀ t₁ t₂ rest, fuzzyMatches todos q = t₁ :: t₂ :: rest →
        handleToolCall api toIso nowMs todos (.deleteTodo q)
            = (.err (multipleDeleteMsg (t₁ :: t₂ :: rest)), [])
        ∧ handleToolCall api toIso nowMs todos (.updateTodo q nt nd np ndd)
            = (.err (multipleUpdateMsg (t₁ :: t₂ :: rest)), [])
        ∧ (∀ t ∈ t₁ :: t₂ :: rest,
            t.title <:+: multipleDeleteMsg (t₁ :: t₂ :: rest)
            ∧ t.title <:+: multipleUpdateMsg (t₁ :: t₂ :: rest)))
    ∧ (∀ t, fuzzyMatches todos q = [t] →
        (handleToolCall api toIso nowMs todos (.deleteTodo q)).2 = [CrudCall.delete t.id]
        ∧ (handleToolCall api toIso nowMs todos (.updateTodo q nt nd np ndd)).2
            = [CrudCall.update t.id (jsOr nt t.title) (jsOr nd t.description)
                (jsOr np t.priority) (jsOr ndd t.due_date)])
    ∧ (fuzzyMatches exTodos "milk".toList = [exMilk]
        ∧ fuzzyMatches exTodos "buy".toList = [exMilk, exBread]
        ∧ fuzzyMatches exTodos "eggs".toList = []) := by
  refine ⟨?_, by decide, ?_, ?_, by decide, by decide, by decide⟩
  · intro h
    exact ⟨by simp [handleToolCall, h], by simp [handleToolCall, h]⟩
  · intro t₁ t₂ rest h
    refine ⟨by simp [handleToolCall, h], by simp [handleToolCall, h], ?_⟩
    intro t ht
    exact ⟨title_infix_multipleDeleteMsg ht, title_infix_multipleUpdateMsg ht⟩
  · intro t h
    constructor
    · cases hapi : api (CrudCall.delete t.id) <;> simp [handleToolCall, h, hapi]
    · cases hapi : api (CrudCall.update t.id (jsOr nt t.title) (jsOr nd t.description)
        (jsOr np t.priority) (jsOr ndd t.due_date)) <;> simp [handleToolCall, h, hapi]

/-- C1 witness: the no-match query "eggs" on the example mirror yields the
no-task-found error and performs no CRUD call. -/
theorem fuzzy_resolution_witness :
    handleToolCall (fun _ => .ok ()) (fun _ => []) 0 exTodos (.deleteTodo "eggs".toList)
      = (.err noTaskFoundMsg, []) :=
  ((fuzzy_resolution (fun _ => .ok ()) (fun _ => []) 0 exTodos "eggs".toList
      none none none none).1 (by decide)).1

/-- C4: for every create tool call — whatever combination of optional
arguments is present — exactly one CRUD create is issued, with each
argument defaulted independently by the JS `||`: an absent priority
becomes "medium" regardless of the due-date argument, an absent due date
becomes `Date.now() + 86400000` milliseconds (now plus 24 hours) in ISO
form regardless of the priority argument; the title is a required
argument of the tool schema, and on CRUD success the result message
contains the given title. -/
theorem create_defaults (api : CrudCall → Except Str Unit) (toIso : ℕ → Str)
    (nowMs : ℕ) (todos : List Todo) (title : Str)
    (descr priority due_date : Option Str) :
    (handleToolCall api toIso nowMs todos (.createTodo title descr priority due_date)).2
      = [CrudCall.create title (jsOr descr []) (jsOr priority "medium".toList)
          (jsOr due_date (toIso (nowMs + 86400000)))]
    ∧ (handleToolCall api toIso nowMs todos (.createTodo title descr none due_date)).2
      = [CrudCall.create title (jsOr descr []) "medium".toList
          (jsOr due_date (toIso (nowMs + 86400000)))]
    ∧ (handleToolCall api toIso nowMs todos (.createTodo title descr priority none)).2
      = [CrudCall.create title (jsOr descr []) (jsOr priority "medium".toList)
          (toIso (nowMs + 86400000))]
    ∧ (api (CrudCall.create title (jsOr descr []) (jsOr priority "medium".toList)
          (jsOr due_date (toIso (nowMs + 86400000)))) = .ok () →
        (handleToolCall api toIso nowMs todos (.createTodo title descr priority due_date)).1
          = .ok (createdMsg title))
    ∧ title <:+: createdMsg title := by
  have key : ∀ prio dd : Option Str,
      (handleToolCall api toIso nowMs todos (.createTodo title descr prio dd)).2
        = [CrudCall.create title (jsOr descr []) (jsOr prio "medium".toList)
            (jsOr dd (toIso (nowMs + 86400000)))] := by
    intro prio dd
    cases hapi : api (CrudCall.create title (jsOr descr []) (jsOr prio "medium".toList)
      (jsOr dd (toIso (nowMs + 86400000)))) <;>
      (simp only [handleToolCall]; rw [hapi])
  refine ⟨key priority due_date, ?_, ?_, ?_, ⟨"Created task \"".toList, "\"".toList, rfl⟩⟩
  · rw [key none due_date, jsOr_none]
  · rw [key priority none, jsOr_none]
  · intro hapi
    simp only [handleToolCall]
    rw [hapi]

/-- C4 witness: creating "Buy Milk" with an explicit priority but no due
date succeeds with the title in the message. -/
theorem create_defaults_witness :
    (handleToolCall (fun _ => .ok ()) (fun _ => []) 0 []
        (.createTodo "Buy Milk".toList none (some "high".toList) none)).1
      = .ok (createdMsg "Buy Milk".toList) :=
  (create_defaults (fun _ => .ok ()) (fun _ => []) 0 [] "Buy Milk".toList none
    (some "high".toList) none).2.2.2.1 rfl

/-- C5 (amended): whenever a branch of the bridge performs a CRUD call and
that call throws, the bridge returns a structured error result whose
message is the thrown message when it is nonempty, and the literal
"Action failed" when it is empty; the bridge itself is a total function —
no exception crosses it. -/
theorem crud_error_surfaced (api : CrudCall → Except Str Unit) (toIso : ℕ → Str)
    (nowMs : ℕ) (todos : List Todo) (fc : ToolCall) (call : CrudCall) (e : Str)
    (hmem : call ∈ (handleToolCall api toIso nowMs todos fc).2)
    (hapi : api call = .error e) :
    (handleToolCall api toIso nowMs todos fc).1 = .err (caughtMsg e) := by
  cases fc with
  | getTodos => simp [handleToolCall] at hmem
  | unknownTool name => simp [handleToolCall] at hmem
  | createTodo title d p dd =>
      simp only [handleToolCall] at hmem ⊢
      split at hmem <;> rename_i heq <;>
        simp only [List.mem_singleton] at hmem <;> subst hmem <;>
        rw [hapi] at heq
      · exact absurd heq (by simp)
      · obtain rfl : e = _ := by injection heq
        rfl
  | deleteTodo q =>
      simp only [handleToolCall] at hmem ⊢
      split at hmem
      · simp at hmem
      · split at hmem <;> rename_i heq <;>
          simp only [List.mem_singleton] at hmem <;> subst hmem <;>
          rw [hapi] at heq
        · exact absurd heq (by simp)
        · obtain rfl : e = _ := by injection heq
          rfl
      · simp at hmem
  | updateTodo q nt nd np ndd =>
      simp only [handleToolCall] at hmem ⊢
      split at hmem
      · simp at hmem
      · split at hmem <;> rename_i heq <;>
          simp only [List.mem_singleton] at hmem <;> subst hmem <;>
          rw [hapi] at heq
        · exact absurd heq (by simp)
        · obtain rfl : e = _ := by injection heq
          rfl
      · simp at hmem

/-- C5 witness: a CRUD failure with message "boom" surfaces as a
structured error result carrying "boom". -/
theorem crud_error_surfaced_witness :
    (handleToolCall (fun _ => .error "boom".toList) (fun _ => []) 0 []
        (.createTodo "X".toList none none none)).1
      = .err (caughtMsg "boom".toList) :=
  crud_error_surfaced (fun _ => .error "boom".toList) (fun _ => []) 0 []
    (.createTodo "X".toList none none none)
    (CrudCall.create "X".toList [] "medium".toList []) "boom".toList (by decide) rfl

/-- C5 counterexample to the claim as stated: when the underlying error's
message is the empty string, the bridge result does not carry it — the
message is replaced by the fallback "Action failed". -/
theorem crud_error_surfaced_cex :
    handleToolCall (fun _ => .error []) (fun _ => []) 0 []
        (.createTodo "X".toList none none none)
      = (.err "Action failed".toList,
         [CrudCall.create "X".toList [] "medium".toList []])
    ∧ "Action failed".toList ≠ ([] : Str) := by
  exact ⟨by decide, by decide⟩

theorem clampSample_le_one (s : ℚ) : clampSample s ≤ 1 :=
  max_le (by norm_num) (min_le_left _ _)

theorem neg_one_le_clampSample (s : ℚ) : -1 ≤ clampSample s := le_max_left _ _

theorem clampSample_idem (s : ℚ) : clampSample (clampSample s) = clampSample s := by
  have h1 := clampSample_le_one s
  have h2 := neg_one_le_clampSample s
  show max (-1) (min 1 (clampSample s)) = clampSample s
  rw [min_eq_right h1, max_eq_right h2]

theorem wrap16_eq_self {n : ℤ} (h1 : -32768 ≤ n) (h2 : n ≤ 32767) : wrap16 n = n := by
  unfold wrap16
  omega

theorem floatToInt16_spec (s : ℚ) :
    (clampSample s < 0 → floatToInt16 s = ⌈clampSample s * 32768⌉)
    ∧ (0 ≤ clampSample s → floatToInt16 s = ⌊clampSample s * 32767⌋) := by
  have h1 := clampSample_le_one s
  have h2 := neg_one_le_clampSample s
  constructor
  · intro hlt
    have hneg : clampSample s * 32768 < 0 := mul_neg_of_neg_of_pos hlt (by norm_num)
    have hup : ⌈clampSample s * 32768⌉ ≤ 0 := by
      calc ⌈clampSample s * 32768⌉ ≤ ⌈(0 : ℚ)⌉ := Int.ceil_mono (le_of_lt hneg)
        _ = 0 := by norm_num
    have hlo : (-32768 : ℤ) ≤ ⌈clampSample s * 32768⌉ := by
      have h : ((-32768 : ℤ) : ℚ) ≤ clampSample s * 32768 := by push_cast; linarith
      calc (-32768 : ℤ) = ⌈((-32768 : ℤ) : ℚ)⌉ := (Int.ceil_intCast _).symm
        _ ≤ ⌈clampSample s * 32768⌉ := Int.ceil_mono h
    simp only [floatToInt16, if_pos hlt]
    rw [jsTrunc, if_pos hneg]
    exact wrap16_eq_self hlo (le_trans hup (by norm_num))
  · intro hge
    have hpos : 0 ≤ clampSample s * 32767 := mul_nonneg hge (by norm_num)
    have hlo : (0 : ℤ) ≤ ⌊clampSample s * 32767⌋ := by
      calc (0 : ℤ) = ⌊((0 : ℤ) : ℚ)⌋ := (Int.floor_intCast _).symm
        _ ≤ ⌊clampSample s * 32767⌋ := Int.floor_mono (by push_cast; linarith)
    have hup : ⌊clampSample s * 32767⌋ ≤ 32767 := by
      calc ⌊clampSample s * 32767⌋ ≤ ⌊((32767 : ℤ) : ℚ)⌋ :=
            Int.floor_mono (by push_cast; linarith)
        _ = 32767 := Int.floor_intCast _
    simp only [floatToInt16, if_neg (not_lt.mpr hge)]
    rw [jsTrunc, if_neg (not_lt.mpr hpos)]
    exact wrap16_eq_self (le_trans (by norm_num) hlo) hup

theorem floatToInt16_range (s : ℚ) : -32768 ≤ floatToInt16 s ∧ floatToInt16 s ≤ 32767 := by
  have h1 := clampSample_le_one s
  have h2 := neg_one_le_clampSample s
  by_cases hlt : clampSample s < 0
  · rw [(floatToInt16_spec s).1 hlt]
    constructor
    · have h : ((-32768 : ℤ) : ℚ) ≤ clampSample s * 32768 := by push_cast; linarith
      calc (-32768 : ℤ) = ⌈((-32768 : ℤ) : ℚ)⌉ := (Int.ceil_intCast _).symm
        _ ≤ ⌈clampSample s * 32768⌉ := Int.ceil_mono h
    · have : ⌈clampSample s * 32768⌉ ≤ ⌈(0 : ℚ)⌉ :=
        Int.ceil_mono (le_of_lt (mul_neg_of_neg_of_pos hlt (by norm_num)))
      simp at this
      omega
  · push_neg at hlt
    rw [(floatToInt16_spec s).2 hlt]
    constructor
    · have : (0 : ℤ) = ⌊((0 : ℤ) : ℚ)⌋ := (Int.floor_intCast _).symm
      have h0 : (0 : ℤ) ≤ ⌊clampSample s * 32767⌋ := by
        rw [this]
        exact Int.floor_mono (by push_cast; nlinarith)
      omega
    · calc ⌊clampSample s * 32767⌋ ≤ ⌊((32767 : ℤ) : ℚ)⌋ :=
            Int.floor_mono (by push_cast; nlinarith)
        _ = 32767 := Int.floor_intCast _

theorem floatToInt16_clamp (s : ℚ) : floatToInt16 (clampSample s) = floatToInt16 s := by
  simp only [floatToInt16, clampSample_idem]

theorem quant_bound (s : ℚ) :
    |((floatToInt16 s : ℤ) : ℚ) / 32768 - clampSample s| < 1 / 16384 := by
  have h1 := clampSample_le_one s
  have h2 := neg_one_le_clampSample s
  by_cases hlt : clampSample s < 0
  · rw [(floatToInt16_spec s).1 hlt]
    have hle : clampSample s * 32768 ≤ ((⌈clampSample s * 32768⌉ : ℤ) : ℚ) := Int.le_ceil _
    have hlt2 : ((⌈clampSample s * 32768⌉ : ℤ) : ℚ) < clampSample s * 32768 + 1 :=
      Int.ceil_lt_add_one _
    rw [abs_sub_lt_iff]
    constructor <;> linarith
  · push_neg at hlt
    rw [(floatToInt16_spec s).2 hlt]
    have hle : ((⌊clampSample s * 32767⌋ : ℤ) : ℚ) ≤ clampSample s * 32767 := Int.floor_le _
    have hgt : clampSample s * 32767 < ((⌊clampSample s * 32767⌋ : ℤ) : ℚ) + 1 :=
      Int.lt_floor_add_one _
    rw [abs_sub_lt_iff]
    constructor <;> linarith

theorem int16ToBytesLE_lt (q : ℤ) : ∀ b ∈ int16ToBytesLE q, b < 256 := by
  intro b hb
  have hmod : 0 ≤ q % 65536 := Int.emod_nonneg q (by norm_num)
  have hlt : q % 65536 < 65536 := Int.emod_lt_of_pos q (by norm_num)
  simp only [int16ToBytesLE, List.mem_cons, List.mem_singleton] at hb
  rcases hb with rfl | rfl | h
  · omega
  · omega
  · exact absurd h (List.not_mem_nil b)

theorem toSigned16_bytes (q : ℤ) (h1 : -32768 ≤ q) (h2 : q ≤ 32767) :
    toSigned16 ((q % 65536).toNat % 256 + 256 * ((q % 65536).toNat / 256)) = q := by
  unfold toSigned16
  split <;> omega

theorem encodePcm_lt : ∀ (xs : List ℚ) (b : ℕ), b ∈ encodePcm xs → b < 256
  | [], b, hb => absurd hb (List.not_mem_nil b)
  | x :: xs, b, hb => by
      rcases List.mem_append.mp hb with h | h
      · exact int16ToBytesLE_lt _ b h
      · exact encodePcm_lt xs b h

theorem bytesToPcm_encodePcm : ∀ xs : List ℚ,
    bytesToPcm (encodePcm xs) = some (xs.map floatToInt16)
  | [] => rfl
  | x :: xs => by
      have ih := bytesToPcm_encodePcm xs
      obtain ⟨hr1, hr2⟩ := floatToInt16_range x
      show (bytesToPcm (encodePcm xs)).map
          (fun qs => toSigned16 ((floatToInt16 x % 65536).toNat % 256
            + 256 * ((floatToInt16 x % 65536).toNat / 256)) :: qs) = _
      rw [ih, toSigned16_bytes (floatToInt16 x) hr1 hr2]
      rfl

theorem charToSix_sixToChar : ∀ n : ℕ, n < 64 → charToSix (sixToChar n) = some n := by
  decide

theorem sixToChar_ne_pad : ∀ n : ℕ, n < 64 → sixToChar n ≠ '=' := by
  decide

theorem base64_roundtrip : ∀ bs : List ℕ, (∀ b ∈ bs, b < 256) →
    base64Decode (base64Encode bs) = some bs
  | [], _ => rfl
  | [b₁], h => by
      have hb : b₁ < 256 := h b₁ (by simp)
      have h1 : b₁ / 4 < 64 := by omega
      have h2 : b₁ % 4 * 16 < 64 := by omega
      simp only [base64Encode, base64Decode, base64DecodeGroup,
        charToSix_sixToChar _ h1, charToSix_sixToChar _ h2, if_pos]
      simp
      omega
  | [b₁, b₂], h => by
      have hb1 : b₁ < 256 := h b₁ (by simp)
      have hb2 : b₂ < 256 := h b₂ (by simp)
      have h1 : b₁ / 4 < 64 := by omega
      have h2 : b₁ % 4 * 16 + b₂ / 16 < 64 := by omega
      have h3 : b₂ % 16 * 4 < 64 := by omega
      simp only [base64Encode, base64Decode, base64DecodeGroup,
        charToSix_sixToChar _ h1, charToSix_sixToChar _ h2, charToSix_sixToChar _ h3,
        if_neg (sixToChar_ne_pad _ h3), if_pos]
      simp
      omega
  | b₁ :: b₂ :: b₃ :: rest, h => by
      have hb1 : b₁ < 256 := h b₁ (by simp)
      have hb2 : b₂ < 256 := h b₂ (by simp)
      have hb3 : b₃ < 256 := h b₃ (by simp)
      have ih := base64_roundtrip rest fun b hb => h b (by simp [hb])
      have h1 : b₁ / 4 < 64 := by omega
      have h2 : b₁ % 4 * 16 + b₂ / 16 < 64 := by omega
      have h3 : b₂ % 16 * 4 + b₃ / 64 < 64 := by omega
      have h4 : b₃ % 64 < 64 := by omega
      simp only [base64Encode, base64Decode, base64DecodeGroup,
        charToSix_sixToChar _ h1, charToSix_sixToChar _ h2, charToSix_sixToChar _ h3,
        charToSix_sixToChar _ h4, if_neg (sixToChar_ne_pad _ h3),
        if_neg (sixToChar_ne_pad _ h4), ih]
      simp
      omega

/-- C6 (amended): the capture-side `encode` is a deterministic total
function — clamping each sample to [-1, 1], scaling to the signed 16-bit
range, packing the samples little-endian, and base64-wrapping the bytes —
with no error branch at all: on the empty input it succeeds and yields the
empty string (as `window.btoa('')` does), rather than failing. -/
theorem encode_total :
    (∀ s : ℚ, floatToInt16 s = floatToInt16 (clampSample s)
        ∧ -32768 ≤ floatToInt16 s ∧ floatToInt16 s ≤ 32767)
    ∧ (∀ xs : List ℚ, encode xs = base64Encode (encodePcm xs))
    ∧ encode [] = [] := by
  refine ⟨fun s => ⟨(floatToInt16_clamp s).symm, (floatToInt16_range s).1,
    (floatToInt16_range s).2⟩, fun xs => rfl, rfl⟩

/-- C6 counterexample to the claim as stated: `encode` does not fail on the
empty sample sequence — it returns the empty base64 string, which even
decodes back to an empty buffer. -/
theorem encode_empty_cex :
    encode [] = ([] : Str)
    ∧ decodeWire (encode []) 24000 1 = some ⟨24000, 1, []⟩ :=
  ⟨rfl, rfl⟩

/-- C3 (amended): decoding the encoding of any float sample sequence
succeeds, yields a sequence of the same length, and every decoded sample
differs from the corresponding clamped input sample by strictly less than
2/32768 (two 16-bit quantization steps). -/
theorem decode_encode_roundtrip (xs : List ℚ) :
    ∃ ys : List ℚ,
      decodeWire (encode xs) 24000 1 = some ⟨24000, 1, ys⟩
      ∧ ys.length = xs.length
      ∧ List.Forall₂ (fun y x => |y - clampSample x| < 1 / 16384) ys xs := by
  refine ⟨(xs.map floatToInt16).map fun q => ((q : ℤ) : ℚ) / 32768, ?_, by simp, ?_⟩
  · show (base64Decode (base64Encode (encodePcm xs))).bind
        (fun bytes => decodeAudioData bytes 24000 1) = _
    rw [base64_roundtrip _ (encodePcm_lt xs)]
    show (bytesToPcm (encodePcm xs)).map _ = _
    rw [bytesToPcm_encodePcm]
    rfl
  · rw [List.map_map, List.forall₂_map_left_iff]
    exact List.forall₂_same.mpr fun x _ => quant_bound x

/-- C3 counterexample to the claim's error bound: for the single sample
2/3, the decoded value differs from the (clamped) input by 1/24576, which
exceeds one 16-bit quantization step 1/32768. -/
theorem roundtrip_bound_cex :
    decodeWire (encode [(2 : ℚ) / 3]) 24000 1 = some ⟨24000, 1, [(21844 : ℚ) / 32768]⟩
    ∧ 1 / 32768 < |(21844 : ℚ) / 32768 - clampSample ((2 : ℚ) / 3)| := by
  have hclamp : clampSample ((2 : ℚ) / 3) = 2 / 3 := by
    rw [clampSample, min_eq_right (by norm_num), max_eq_right (by norm_num)]
  constructor
  · have hfloor : ⌊(2 : ℚ) / 3 * 32767⌋ = 21844 := by
      rw [Int.floor_eq_iff]
      constructor <;> norm_num
    have hf : floatToInt16 ((2 : ℚ) / 3) = 21844 := by
      rw [(floatToInt16_spec ((2 : ℚ) / 3)).2 (by rw [hclamp]; norm_num), hclamp, hfloor]
    have hb : encodePcm [(2 : ℚ) / 3] = [84, 85] := by
      show int16ToBytesLE (floatToInt16 ((2 : ℚ) / 3)) ++ encodePcm [] = [84, 85]
      rw [hf]
      decide
    show (base64Decode (base64Encode (encodePcm [(2 : ℚ) / 3]))).bind
        (fun bytes => decodeAudioData bytes 24000 1) = _
    rw [hb]
    have hd : base64Decode (base64Encode [84, 85]) = some [84, 85] := by decide
    rw [hd]
    have hp : bytesToPcm [84, 85] = some [21844] := by decide
    show (bytesToPcm [84, 85]).map
        (fun pcm => AudioBuffer.mk 24000 1 (pcm.map fun q => ((q : ℤ) : ℚ) / 32768)) = _
    rw [hp]
    norm_num
  · rw [hclamp, abs_of_nonpos (by norm_num)]
    norm_num

end TodoVoice
